import Mathlib

/-!
Verification of the Lexon interpreter core (`lexon_interpreter.py`).

We shallowly embed the interpreter: Python strings become Lean `String`s
manipulated through their character lists, the interpreter's mutable
state (`self.variables`, stdin, stdout) becomes an explicit `St` record,
Python exceptions (`HPXError`, `StopLoop`) become explicit result
constructors, and the host expression evaluator (`eval`) becomes an
oracle parameter, since its grammar is outside the source.  Loop
constructs may diverge, so the dispatcher is indexed by fuel; running
out of fuel is a distinguished outcome (`hspin`) that never coincides
with a genuine result of the Python program.
-/

/-- Python whitespace as used by `str.strip` / `str.lstrip`. -/
def isPyWs (c : Char) : Bool :=
  c = ' ' || c = '\t' || c = '\n' || c = '\r' || c = '\x0b' || c = '\x0c'

/-- Python `s.strip()`: drop leading and trailing whitespace. -/
def pystrip (s : String) : String :=
  ⟨((s.data.dropWhile isPyWs).reverse.dropWhile isPyWs).reverse⟩

/-- Python `s.rstrip("\n")`: drop trailing newline characters only. -/
def pyRstripNl (s : String) : String :=
  ⟨(s.data.reverse.dropWhile (fun c => c = '\n')).reverse⟩

/-- `len(line) - len(line.lstrip())`: the number of leading whitespace
characters of a raw line (the indentation count used by `collect_block`). -/
def indentOf (s : String) : Nat :=
  (s.data.takeWhile isPyWs).length

/-- Python `s[n:]` for a character offset `n`. -/
def strAfter (s : String) (n : Nat) : String :=
  ⟨s.data.drop n⟩

/-- Python `s[a:b]` for character offsets `a ≤ b`. -/
def strSlice (s : String) (a b : Nat) : String :=
  ⟨(s.data.drop a).take (b - a)⟩

/-- Python `s.startswith(p)`. -/
def strStarts (s p : String) : Bool :=
  p.data.isPrefixOf s.data

/-- Python `s.endswith(p)`. -/
def strEnds (s p : String) : Bool :=
  p.data.isSuffixOf s.data

/-- Helper for `pySplitSpace`: Python `str.split(" ", maxsplit)` scanning. -/
def pySplitSpaceAux : List Char → Nat → List Char → List String
  | [], _, acc => [⟨acc.reverse⟩]
  | c :: cs, m, acc =>
    match m with
    | 0 => [⟨acc.reverse ++ (c :: cs)⟩]
    | m' + 1 =>
      if c = ' ' then ⟨acc.reverse⟩ :: pySplitSpaceAux cs m' []
      else pySplitSpaceAux cs (m' + 1) (c :: acc)

/-- Python `s.split(" ", m)`: split on single spaces, at most `m` splits,
empty fields kept, the remainder returned unsplit as the last field. -/
def pySplitSpace (s : String) (m : Nat) : List String :=
  pySplitSpaceAux s.data m []

/-- The dynamically-typed values the embedded expression language produces
(the tags the spec's Value model names; `vNone` is Python `None`). -/
inductive Value where
  | vInt (n : Int)
  | vFloatLit (s : String)
  | vStr (s : String)
  | vBool (b : Bool)
  | vNone
deriving DecidableEq, Repr

/-- Python truthiness of a `Value`, as used by `if self.evaluate(...)`. -/
def truthy : Value → Bool
  | .vInt n => n ≠ 0
  | .vFloatLit s => s ≠ ""
  | .vStr s => s ≠ ""
  | .vBool b => b
  | .vNone => false

/-- Textual rendering used by `print(value)` in `handle_say`. -/
def render : Value → String
  | .vInt n => toString n
  | .vFloatLit s => s
  | .vStr s => s
  | .vBool b => if b then "True" else "False"
  | .vNone => "None"

/-- The distinguishable `HPXError` kinds, one constructor per `raise`
site of the source, carrying the data its f-string message reports. -/
inductive HErr where
  | invalidExpr (text : String)
  | emptyExpr
  | unknownInstruction (text : String) (lineNo : Nat)
  | invalidKeep (text : String)
  | invalidSay (text : String)
  | missingCondition
  | eofError
deriving DecidableEq, Repr

/-- Result of one dispatch: `next i` is a handler's returned resume index,
`done` is normal completion of a block, `stopped` is a propagating
`StopLoop` exception, `herr` a propagating `HPXError`, and `hspin`
means the fuel ran out (no counterpart in the Python program). -/
inductive HRes where
  | next (i : Nat)
  | done
  | stopped
  | herr (e : HErr)
  | hspin
deriving DecidableEq, Repr

/-- Interpreter state: `self.variables` (later bindings shadow earlier
ones, so binding a name again overwrites it), the pending stdin lines,
and the stdout lines printed so far. -/
structure St where
  vars : List (String × Value)
  inp : List String
  out : List String
deriving DecidableEq, Repr

/-- Lookup in `self.variables` (first binding wins). -/
def lookupVar : List (String × Value) → String → Option Value
  | [], _ => none
  | (k, v) :: rest, name => if k = name then some v else lookupVar rest name

/-- The host expression evaluator (`eval(expr, {}, {**env, **self.variables})`)
as an oracle: given the already-normalized expression text, the current
variables, and the pending input lines (the `ask` builtin may consume
them), it returns the produced value and remaining input, or `none` when
the host evaluation raises (which `evaluate` converts to an `HPXError`). -/
def Oracle : Type :=
  String → List (String × Value) → List String → Option (Value × List String)

/-- `(?<![!<>=])` of `_normalize_equality`: the characters that block the
rewrite when they immediately precede a `=`. -/
def isEqGuard (c : Char) : Bool :=
  c = '!' || c = '<' || c = '>' || c = '='

/-- The lookbehind test: no preceding character, or one that is not in
`!<>=`. -/
def prevOk : Option Char → Bool
  | none => true
  | some p => !(isEqGuard p)

/-- One window of the regex `(?<![!<>=])=(?![=])`: the character is `=`,
the lookbehind passes, and the next character is not `=`. -/
def winOk (prev : Option Char) (c : Char) (next : Option Char) : Bool :=
  (c = '=') && prevOk prev && !(next = some '=')

/-- Left-to-right scan of `re.sub(r'(?<![!<>=])=(?![=])', '==', expr)`;
`prev` is the character of the original string preceding the scan point
(lookarounds are zero-width, so they always test original characters). -/
def normAux : Option Char → List Char → List Char
  | _, [] => []
  | prev, c :: rest =>
    if winOk prev c rest[0]? then
      '=' :: '=' :: normAux (some c) rest
    else
      c :: normAux (some c) rest

/-- `Interpreter._normalize_equality`. -/
def normalize_equality (s : String) : String :=
  ⟨normAux none s.data⟩

/-- Modelled from the spec's words for §4.2 step 1, for comparison with
the implementation: position by position, every standalone `=` — one
whose preceding character (none at the start) is not `!`, `<`, `>`, `=`
and whose following character is not `=` — is replaced by `==`, every
other character is kept. -/
def normalizeEqualitySpec (s : String) : String :=
  ⟨((List.range s.data.length).map (fun i =>
    if winOk (if i = 0 then none else some (s.data.getD (i - 1) ' '))
        (s.data.getD i ' ') s.data[i + 1]? then ['=', '=']
    else [s.data.getD i ' '])).flatten⟩

/-- `Interpreter.evaluate`: strip, normalize equality, then hand to the
host evaluator; a host exception becomes `HPXError` carrying the
(normalized, as in the source f-string) expression text. -/
def evaluate (O : Oracle) (expr : String) (vars : List (String × Value))
    (inp : List String) : Except HErr (Value × List String) :=
  let e := normalize_equality (pystrip expr)
  match O e vars inp with
  | some r => .ok r
  | none => .error (.invalidExpr e)

/-- `Interpreter.handle_keep`: `keep <name> to <expr>`; `keep x to ask`
reads one input line as text, anything else evaluates the tail. -/
def handle_keep (O : Oracle) (line : String) (s : St) : Except HErr St :=
  let parts := pySplitSpace line 3
  if parts.length < 4 ∨ parts.getD 2 "" ≠ "to" then
    .error (.invalidKeep line)
  else
    let name := parts.getD 1 ""
    let expr := pystrip (parts.getD 3 "")
    if expr = "ask" then
      match s.inp with
      | [] => .error .eofError
      | v :: rest => .ok { s with vars := (name, .vStr v) :: s.vars, inp := rest }
    else
      match evaluate O expr s.vars s.inp with
      | .error e => .error e
      | .ok (v, inp') => .ok { s with vars := (name, v) :: s.vars, inp := inp' }

/-- `Interpreter.handle_say`: `say(<expr>)` with a non-empty inner
expression; prints the rendered value. -/
def handle_say (O : Oracle) (line : String) (s : St) : Except HErr St :=
  if !(strStarts line "say(" && strEnds line ")") then
    .error (.invalidSay line)
  else
    let inner := pystrip (strSlice line 4 (line.data.length - 1))
    if inner = "" then .error .emptyExpr
    else
      match evaluate O inner s.vars s.inp with
      | .error e => .error e
      | .ok (v, inp') => .ok { s with out := s.out ++ [render v], inp := inp' }

/-- Scanning loop of `Interpreter.collect_block`, over the suffix of the
line sequence after the construct's own line; `i` tracks the absolute
index of the head of `rest`. -/
def collectAux (base : Nat) : List String → Nat → List String × Nat
  | [], i => ([], i - 1)
  | l :: rest, i =>
    if indentOf l ≤ base then ([], i - 1)
    else
      let r := collectAux base rest (i + 1)
      (l :: r.1, r.2)

/-- `Interpreter.collect_block`: body = the following lines strictly more
indented than the starting line, and the index of the last included line
(`start` itself when the body is empty). -/
def collect_block (lines : List String) (start : Nat) : List String × Nat :=
  collectAux (indentOf (lines.getD start "")) (lines.drop (start + 1)) (start + 1)

/-- Arm-collecting loop of `Interpreter.handle_when`.  The extra fuel
argument only makes the recursion structural: each genuine iteration
moves strictly forward and stays inside the line sequence, so
`lines.length + 1` units (as supplied by `collectBranches`) are never
exhausted. -/
def collectBranchesAux (lines : List String) :
    Nat → Nat → List (Option String × List String) × Nat
  | 0, i => ([], i)
  | f + 1, i =>
    if i < lines.length then
      let line := pystrip (lines.getD i "")
      let cond? : Option (Option String) :=
        if strStarts line "when " then some (some (pystrip (strAfter line 5)))
        else if strStarts line "or " then some (some (pystrip (strAfter line 3)))
        else if strStarts line "complete" then some none
        else none
      match cond? with
      | none => ([], i)
      | some cond =>
        let bb := collect_block lines i
        let i2 := bb.2 + 1
        if i2 < lines.length then
          let nx := pystrip (lines.getD i2 "")
          if strStarts nx "or " || strStarts nx "complete" then
            let r := collectBranchesAux lines f i2
            ((cond, bb.1) :: r.1, r.2)
          else ([(cond, bb.1)], i2)
        else ([(cond, bb.1)], i2)
    else ([], i)

/-- The arm-collection phase of `Interpreter.handle_when`: the recorded
`(condition, body)` pairs in declaration order, and the final scan index
(the handler returns this minus one). -/
def collectBranches (lines : List String) (i : Nat) :
    List (Option String × List String) × Nat :=
  collectBranchesAux lines (lines.length + 1) i

/-- The dispatch tasks of the interpreter's mutual recursion, merged into
one type so the fueled interpreter is a single structural recursion. -/
inductive Disp where
  | blockT (lines : List String) (i e : Nat)
  | whenT (lines : List String) (index : Nat)
  | branchesT (bs : List (Option String × List String))
  | repeatT (lines : List String) (index : Nat)
  | repeatLoopT (condition : String) (block : List String) (endIdx : Nat)
  | foreverT (lines : List String) (index : Nat)
  | foreverLoopT (block : List String) (endIdx : Nat)

/-- The interpreter core.  `blockT lines i e` is `Interpreter.run_block`,
`whenT` is `handle_when` (selection over `collectBranches`), `branchesT`
its arm-selection loop, `repeatT`/`repeatLoopT` are
`handle_repeat_until` and its `while not evaluate(...)` loop,
`foreverT`/`foreverLoopT` are `handle_forever` and its `while True`
loop.  Fuel decreases on every call; exhaustion yields `hspin`. -/
def interp (O : Oracle) : Nat → Disp → St → St × HRes
  | 0, _, s => (s, .hspin)
  | f + 1, t, s =>
    match t with
    | .blockT lines i e =>
      if i < e then
        let line := pystrip (pyRstripNl (lines.getD i ""))
        if line = "" || strStarts line "#" then
          interp O f (.blockT lines (i + 1) e) s
        else if strStarts line "keep " then
          match handle_keep O line s with
          | .ok s' => interp O f (.blockT lines (i + 1) e) s'
          | .error er => (s, .herr er)
        else if strStarts line "say" then
          match handle_say O line s with
          | .ok s' => interp O f (.blockT lines (i + 1) e) s'
          | .error er => (s, .herr er)
        else if line = "stop" then (s, .stopped)
        else if strStarts line "when " then
          match interp O f (.whenT lines i) s with
          | (s', .next i2) => interp O f (.blockT lines (i2 + 1) e) s'
          | r => r
        else if strStarts line "repeat until " then
          match interp O f (.repeatT lines i) s with
          | (s', .next i2) => interp O f (.blockT lines (i2 + 1) e) s'
          | r => r
        else if strStarts line "forever" then
          match interp O f (.foreverT lines i) s with
          | (s', .next i2) => interp O f (.blockT lines (i2 + 1) e) s'
          | r => r
        else (s, .herr (.unknownInstruction line (i + 1)))
      else (s, .done)
    | .whenT lines index =>
      let br := collectBranches lines index
      match interp O f (.branchesT br.1) s with
      | (s', .done) => (s', .next (br.2 - 1))
      | r => r
    | .branchesT bs =>
      match bs with
      | [] => (s, .done)
      | (none, block) :: _ => interp O f (.blockT block 0 block.length) s
      | (some c, block) :: rest =>
        match evaluate O c s.vars s.inp with
        | .error er => (s, .herr er)
        | .ok (v, inp') =>
          if truthy v then
            interp O f (.blockT block 0 block.length) { s with inp := inp' }
          else interp O f (.branchesT rest) { s with inp := inp' }
    | .repeatT lines index =>
      let condition := pystrip (strAfter (pystrip (lines.getD index "")) 13)
      if condition = "" then (s, .herr .missingCondition)
      else
        let bb := collect_block lines index
        interp O f (.repeatLoopT condition bb.1 bb.2) s
    | .repeatLoopT condition block endIdx =>
      match evaluate O condition s.vars s.inp with
      | .error er => (s, .herr er)
      | .ok (v, inp') =>
        let s1 := { s with inp := inp' }
        if truthy v then (s1, .next endIdx)
        else
          match interp O f (.blockT block 0 block.length) s1 with
          | (s2, .done) => interp O f (.repeatLoopT condition block endIdx) s2
          | (s2, .stopped) => (s2, .next endIdx)
          | r => r
    | .foreverT lines index =>
      let bb := collect_block lines index
      interp O f (.foreverLoopT bb.1 bb.2) s
    | .foreverLoopT block endIdx =>
      match interp O f (.blockT block 0 block.length) s with
      | (s2, .done) => interp O f (.foreverLoopT block endIdx) s2
      | (s2, .stopped) => (s2, .next endIdx)
      | r => r

/-- `Interpreter.run_block` over `[i, e)` of `lines`. -/
def run_block (O : Oracle) (fuel : Nat) (lines : List String) (i e : Nat)
    (s : St) : St × HRes :=
  interp O fuel (.blockT lines i e) s

/-- `Interpreter.handle_when` (arm collection plus selection). -/
def handle_when (O : Oracle) (fuel : Nat) (lines : List String) (index : Nat)
    (s : St) : St × HRes :=
  interp O fuel (.whenT lines index) s

/-- The arm-selection loop of `Interpreter.handle_when`. -/
def run_branches (O : Oracle) (fuel : Nat)
    (bs : List (Option String × List String)) (s : St) : St × HRes :=
  interp O fuel (.branchesT bs) s

/-- `Interpreter.handle_repeat_until`. -/
def handle_repeat_until (O : Oracle) (fuel : Nat) (lines : List String)
    (index : Nat) (s : St) : St × HRes :=
  interp O fuel (.repeatT lines index) s

/-- The `while not self.evaluate(condition)` loop of
`Interpreter.handle_repeat_until`. -/
def repeat_loop (O : Oracle) (fuel : Nat) (condition : String)
    (block : List String) (endIdx : Nat) (s : St) : St × HRes :=
  interp O fuel (.repeatLoopT condition block endIdx) s

/-- `Interpreter.handle_forever`. -/
def handle_forever (O : Oracle) (fuel : Nat) (lines : List String)
    (index : Nat) (s : St) : St × HRes :=
  interp O fuel (.foreverT lines index) s

/-- The `while True` loop of `Interpreter.handle_forever`. -/
def forever_loop (O : Oracle) (fuel : Nat) (block : List String)
    (endIdx : Nat) (s : St) : St × HRes :=
  interp O fuel (.foreverLoopT block endIdx) s

/-- `Interpreter.execute`: dispatch the whole line sequence.  Note it
does not catch `StopLoop`, so a `stopped` result passes through. -/
def execute (O : Oracle) (fuel : Nat) (lines : List String) (s : St) :
    St × HRes :=
  run_block O fuel lines 0 lines.length s

/-- A concrete oracle covering the (already normalized) expressions the
spec's examples use, for witnesses and counterexamples. -/
def testOracle : Oracle := fun e vars inp =>
  if e = "True" then some (.vBool true, inp)
  else if e = "7" then some (.vInt 7, inp)
  else if e = "2 + 3" then some (.vInt 5, inp)
  else if e = "x == 1" then
    some (.vBool (decide (lookupVar vars "x" = some (.vInt 1))), inp)
  else if e = "x == 2" then
    some (.vBool (decide (lookupVar vars "x" = some (.vInt 2))), inp)
  else if e = "count == 3" then
    some (.vBool (decide (lookupVar vars "count" = some (.vInt 3))), inp)
  else if e = "count + 1" then
    match lookupVar vars "count" with
    | some (.vInt n) => some (.vInt (n + 1), inp)
    | _ => none
  else none

/-- The empty run state. -/
def st0 : St := ⟨[], [], []⟩

/-- A state with `x` bound to the integer `2` (the spec's conditional
example). -/
def stX2 : St := ⟨[("x", .vInt 2)], [], []⟩

/-- A state with `count` bound to the integer `0` (the spec's
`repeat until` example). -/
def stCount0 : St := ⟨[("count", .vInt 0)], [], []⟩

/-! ## Helper lemmas -/

/-- A `=` preceded by `=` is never rewritten (its lookbehind fails). -/
theorem normAux_cons_eq (r : List Char) :
    normAux (some '=') ('=' :: r) = '=' :: normAux (some '=') r := by
  simp [normAux, winOk, prevOk, isEqGuard]

/-- The equality normalization is idempotent. -/
theorem normAux_idem (l : List Char) : ∀ prev,
    normAux prev (normAux prev l) = normAux prev l := by
  induction l with
  | nil => intro prev; simp [normAux]
  | cons c rest ih =>
    intro prev
    by_cases hw : winOk prev c rest[0]? = true
    · have hc : c = '=' := by
        by_contra hne
        simp [winOk, hne] at hw
      subst hc
      rw [normAux, if_pos hw]
      have h1 : normAux prev ('=' :: '=' :: normAux (some '=') rest) =
          '=' :: normAux (some '=') ('=' :: normAux (some '=') rest) := by
        simp [normAux, winOk]
      rw [h1, normAux_cons_eq, ih (some '=')]
    · rw [normAux, if_neg hw]
      have hcond : winOk prev c (normAux (some c) rest)[0]? = false := by
        by_cases hc : c = '='
        · subst hc
          by_cases hp : prevOk prev = true
          · have hr : rest[0]? = some '=' := by
              by_contra hne
              simp [winOk, hp, hne] at hw
            cases rest with
            | nil => simp at hr
            | cons a r =>
              have ha : a = '=' := by simpa using hr
              subst ha
              rw [normAux_cons_eq]
              simp [winOk]
          · rw [Bool.not_eq_true] at hp
            simp [winOk, hp]
        · simp [winOk, hc]
      rw [normAux, hcond]
      simp only [Bool.false_eq_true, if_false]
      rw [ih (some c)]

/-- The left-to-right scan agrees with the position-by-position reading of
the rewrite rule. -/
theorem normAux_eq_spec (l : List Char) : ∀ prev,
    normAux prev l = ((List.range l.length).map (fun i =>
      if winOk (if i = 0 then prev else some (l.getD (i - 1) ' '))
          (l.getD i ' ') l[i + 1]? then ['=', '=']
      else [l.getD i ' '])).flatten := by
  induction l with
  | nil => intro prev; simp [normAux]
  | cons c rest ih =>
    intro prev
    rw [List.length_cons, List.range_succ_eq_map, List.map_cons, List.map_map,
      List.flatten_cons]
    have hfun : ((fun i =>
        if winOk (if i = 0 then prev else some ((c :: rest).getD (i - 1) ' '))
            ((c :: rest).getD i ' ') (c :: rest)[i + 1]? then ['=', '=']
        else [(c :: rest).getD i ' ']) ∘ Nat.succ) =
        (fun i =>
          if winOk (if i = 0 then some c else some (rest.getD (i - 1) ' '))
              (rest.getD i ' ') rest[i + 1]? then ['=', '=']
          else [rest.getD i ' ']) := by
      funext i
      cases i with
      | zero => simp [List.getD]
      | succ j => simp [List.getD]
    rw [hfun, ← ih (some c), normAux]
    by_cases hw : winOk prev c rest[0]? = true
    · simp [hw]
    · rw [Bool.not_eq_true] at hw
      simp [hw]

/-- The scanning loop of `collect_block` takes exactly the longest strictly
more-indented run and reports the index one before the stopping point. -/
theorem collectAux_eq (base : Nat) (rest : List String) : ∀ (i : Nat),
    collectAux base rest i =
      (rest.takeWhile (fun l => decide (base < indentOf l)),
       i + (rest.takeWhile (fun l => decide (base < indentOf l))).length - 1) := by
  induction rest with
  | nil => intro i; simp [collectAux]
  | cons l rest ih =>
    intro i
    by_cases h : indentOf l ≤ base
    · rw [collectAux, if_pos h]
      simp [List.takeWhile_cons, Nat.not_lt.mpr h]
    · rw [collectAux, if_neg h, ih (i + 1)]
      have hlt : base < indentOf l := Nat.lt_of_not_le h
      have htw : List.takeWhile (fun l => decide (base < indentOf l)) (l :: rest) =
          l :: List.takeWhile (fun l => decide (base < indentOf l)) rest := by
        simp [List.takeWhile_cons, hlt]
      rw [htw]
      simp only [List.length_cons]
      congr 1
      omega

/-! ## Claims -/

/-- Claim C1: in a multi-branch conditional, the recorded arms are tried in
declaration order; a `complete` arm (condition `none`) fires
unconditionally, an arm whose condition evaluates truthy has its body
dispatched and the remaining arms are discarded, a non-truthy arm is
skipped, and an empty arm list executes no body and falls through; in
particular `when x = 1 / or x = 2 / complete` with `x = 2` executes
exactly the second arm's body. -/
theorem c1_when_first_match (O : Oracle) (f : Nat) (c : String)
    (b : List String) (rest : List (Option String × List String)) (s : St)
    (v : Value) (inp' : List String) :
    (run_branches O (f + 1) [] s = (s, .done)) ∧
    (run_branches O (f + 1) ((none, b) :: rest) s =
      run_block O f b 0 b.length s) ∧
    (evaluate O c s.vars s.inp = .ok (v, inp') → truthy v = true →
      run_branches O (f + 1) ((some c, b) :: rest) s =
        run_block O f b 0 b.length { s with inp := inp' }) ∧
    (evaluate O c s.vars s.inp = .ok (v, inp') → truthy v = false →
      run_branches O (f + 1) ((some c, b) :: rest) s =
        run_branches O f rest { s with inp := inp' }) ∧
    execute testOracle 30 ["when x = 1", "  keep a to 7", "or x = 2",
      "  keep b to 7", "complete", "  keep c to 7"] stX2 =
      (⟨[("b", .vInt 7), ("x", .vInt 2)], [], []⟩, .done) := by
  refine ⟨rfl, rfl, ?_, ?_, by decide⟩
  · intro he ht
    show interp O (f + 1) (.branchesT ((some c, b) :: rest)) s = _
    rw [interp]
    rw [he]
    simp only [ht, if_true]
    rfl
  · intro he ht
    show interp O (f + 1) (.branchesT ((some c, b) :: rest)) s = _
    rw [interp, he]
    simp only [ht, Bool.false_eq_true, if_false]
    rfl

/-- Witness for C1: with `x = 2`, the arm `x = 2` evaluates truthy and its
body is dispatched. -/
theorem c1_witness :
    run_branches testOracle 6 [(some "x = 2", ["  keep b to 7"])] stX2 =
      run_block testOracle 5 ["  keep b to 7"] 0 1 stX2 :=
  (c1_when_first_match testOracle 5 "x = 2" ["  keep b to 7"] [] stX2
    (.vBool true) []).2.2.1 rfl rfl

/-- Claim C2: `repeat until` evaluates the condition before each
iteration and terminates without running the body once it is truthy; a
`StopLoop` raised by the body ends the loop at once (as a normal result,
not an error) without re-checking the condition; an empty condition text
fails with `MissingCondition` before any iteration, for every oracle;
and `repeat until count = 3` incrementing `count` from `0` runs the body
exactly 3 times (one binding per body run is prepended, so the final
variable list records each of the three runs). -/
theorem c2_repeat_until (O : Oracle) (f : Nat) (lines : List String)
    (index : Nat) (condition : String) (block : List String) (endIdx : Nat)
    (s s2 : St) (v : Value) (inp' : List String) :
    (pystrip (strAfter (pystrip (lines.getD index "")) 13) = "" →
      handle_repeat_until O (f + 1) lines index s = (s, .herr .missingCondition)) ∧
    (evaluate O condition s.vars s.inp = .ok (v, inp') → truthy v = true →
      repeat_loop O (f + 1) condition block endIdx s =
        ({ s with inp := inp' }, .next endIdx)) ∧
    (evaluate O condition s.vars s.inp = .ok (v, inp') → truthy v = false →
      run_block O f block 0 block.length { s with inp := inp' } = (s2, .stopped) →
      repeat_loop O (f + 1) condition block endIdx s = (s2, .next endIdx)) ∧
    execute testOracle 40 ["repeat until count = 3", "  keep count to count + 1"]
      stCount0 =
      (⟨[("count", .vInt 3), ("count", .vInt 2), ("count", .vInt 1),
         ("count", .vInt 0)], [], []⟩, .done) := by
  refine ⟨?_, ?_, ?_, by decide⟩
  · intro hc
    show interp O (f + 1) (.repeatT lines index) s = _
    rw [interp]
    simp only [hc, if_true]
  · intro he ht
    show interp O (f + 1) (.repeatLoopT condition block endIdx) s = _
    rw [interp, he]
    simp only [ht, if_true]
  · intro he ht hb
    show interp O (f + 1) (.repeatLoopT condition block endIdx) s = _
    rw [interp, he]
    simp only [ht, Bool.false_eq_true, if_false]
    have hb' : interp O f (.blockT block 0 block.length) { s with inp := inp' } =
        (s2, .stopped) := hb
    rw [hb']

/-- Witness for C2: with `count = 3` the condition is truthy at entry and
the loop ends without running the body. -/
theorem c2_witness :
    repeat_loop testOracle 1 "count = 3" [] 0 ⟨[("count", .vInt 3)], [], []⟩ =
      (⟨[("count", .vInt 3)], [], []⟩, .next 0) :=
  (c2_repeat_until testOracle 0 [] 0 "count = 3" [] 0
    ⟨[("count", .vInt 3)], [], []⟩ st0 (.vBool true) []).2.1 rfl rfl

/-- Claim C3: a `stop` statement raises the Control Signal where it stands;
the conditional construct passes a signal raised in its selected body
through unobserved; the nearest enclosing loop extinguishes it and
terminates; and a `forever` loop whose body nests `when True / stop /
complete` terminates after exactly one iteration (the single `keep`
executed once is the only binding, and the `complete` arm's body never
runs). -/
theorem c3_stop_signal (O : Oracle) (f : Nat) (lines : List String)
    (i e endIdx : Nat) (block : List String) (s s' : St) :
    (i < e → pystrip (pyRstripNl (lines.getD i "")) = "stop" →
      run_block O (f + 1) lines i e s = (s, .stopped)) ∧
    (run_branches O f (collectBranches lines i).1 s = (s', .stopped) →
      handle_when O (f + 1) lines i s = (s', .stopped)) ∧
    (run_block O f block 0 block.length s = (s', .stopped) →
      forever_loop O (f + 1) block endIdx s = (s', .next endIdx)) ∧
    execute testOracle 30 ["forever", "  keep c to 7", "  when True",
      "    stop", "  complete", "    keep z to 7"] st0 =
      (⟨[("c", .vInt 7)], [], []⟩, .done) := by
  refine ⟨?_, ?_, ?_, by decide⟩
  · intro hi hline
    show interp O (f + 1) (.blockT lines i e) s = _
    rw [interp]
    rw [if_pos hi]
    simp only [hline]
    rfl
  · intro hb
    show interp O (f + 1) (.whenT lines i) s = _
    rw [interp]
    have hb' : interp O f (.branchesT (collectBranches lines i).1) s =
        (s', .stopped) := hb
    rw [hb']
  · intro hb
    show interp O (f + 1) (.foreverLoopT block endIdx) s = _
    rw [interp]
    have hb' : interp O f (.blockT block 0 block.length) s = (s', .stopped) := hb
    rw [hb']

/-- Witness for C3: a bare `stop` line raises the Control Signal. -/
theorem c3_witness :
    run_block testOracle 3 ["stop"] 0 1 st0 = (st0, .stopped) :=
  (c3_stop_signal testOracle 2 ["stop"] 0 1 0 [] st0 st0).1 (by decide) rfl

/-- Claim C4: equality normalization rewrites exactly the standalone `=`
occurrences (those not adjacent to `!`, `<`, `>`, `=` on the left nor `=`
on the right) to `==` — proved as agreement with the position-by-position
spec reading `normalizeEqualitySpec` — is idempotent, handles multiple
occurrences independently, and leaves existing `!=`, `<=`, `>=`, `==`
tokens unaltered. -/
theorem c4_normalize (s : String) :
    normalizeEqualitySpec s = normalize_equality s ∧
    normalize_equality (normalize_equality s) = normalize_equality s ∧
    normalize_equality "a = 1 and b = 2" = "a == 1 and b == 2" ∧
    normalize_equality "a != 1 and a <= 2 and a >= 3 and a == 4" =
      "a != 1 and a <= 2 and a >= 3 and a == 4" := by
  refine ⟨?_, ?_, by decide, by decide⟩
  · unfold normalizeEqualitySpec normalize_equality
    rw [normAux_eq_spec]
  · show (⟨normAux none (normAux none s.data)⟩ : String) = ⟨normAux none s.data⟩
    rw [normAux_idem]

/-- Claim C5: the store statement parses `keep <name> to <expr>`; a missing
`to` fails with the invalid-keep error for every oracle and state; tail
`ask` reads one line from the input boundary as text and binds it;
otherwise the tail is evaluated and its value bound (the new binding
shadows, i.e. overwrites, any previous one); and `keep x to 2 + 3`
followed by reading `x` yields the integer 5. -/
theorem c5_keep (O : Oracle) (line name exprt : String) (s : St)
    (v : Value) (w : String) (inp' rest : List String) :
    (handle_keep O "keep x foo 5" s = .error (.invalidKeep "keep x foo 5")) ∧
    (s.inp = w :: rest →
      handle_keep O "keep x to ask" s =
        .ok { s with vars := ("x", .vStr w) :: s.vars, inp := rest }) ∧
    (pySplitSpace line 3 = ["keep", name, "to", exprt] →
      pystrip exprt ≠ "ask" →
      evaluate O (pystrip exprt) s.vars s.inp = .ok (v, inp') →
      handle_keep O line s =
        .ok { s with vars := (name, v) :: s.vars, inp := inp' }) ∧
    (handle_keep testOracle "keep x to 2 + 3" st0 =
      .ok ⟨[("x", .vInt 5)], [], []⟩ ∧
     lookupVar [("x", .vInt 5)] "x" = some (.vInt 5)) := by
  refine ⟨rfl, ?_, ?_, rfl, by decide⟩
  · intro hinp
    unfold handle_keep
    rw [hinp]
    rfl
  · intro hsplit hask he
    unfold handle_keep
    rw [hsplit]
    rw [if_neg (by simp)]
    simp only [List.getD_cons_succ, List.getD_cons_zero]
    rw [if_neg hask, he]

/-- Witness for C5: `keep x to ask` consumes the pending input line and
binds it as text. -/
theorem c5_witness :
    handle_keep testOracle "keep x to ask" ⟨[], ["hello"], []⟩ =
      .ok ⟨[("x", .vStr "hello")], [], []⟩ :=
  (c5_keep testOracle "" "" "" ⟨[], ["hello"], []⟩ .vNone "hello" [] []).2.1 rfl

/-- Claim C6: `collect_block` returns exactly the contiguous run of lines
after `start` whose indentation strictly exceeds the start line's
(stopping at the first line with indentation ≤ the base, or the end),
and the returned end index is the index of the last included line —
`start` itself when the body is empty. -/
theorem c6_collect_block (lines : List String) (start : Nat) :
    collect_block lines start =
      ((lines.drop (start + 1)).takeWhile
         (fun l => decide (indentOf (lines.getD start "") < indentOf l)),
       start + ((lines.drop (start + 1)).takeWhile
         (fun l => decide (indentOf (lines.getD start "") < indentOf l))).length) := by
  unfold collect_block
  rw [collectAux_eq]
  congr 1
  omega

/-- Claim C8 (amended): a top-level `stop` raises the Control Signal, which
ends execution immediately — later lines are not dispatched and no HPX
error is produced — but the signal does escape `execute`: nothing in
`execute` catches `StopLoop`, so the `stopped` outcome is visible to the
caller (it is still distinct from every error outcome). -/
theorem c8_top_level_stop (O : Oracle) (f : Nat) (lines : List String)
    (i e : Nat) (s : St) :
    (i < e → pystrip (pyRstripNl (lines.getD i "")) = "stop" →
      run_block O (f + 1) lines i e s = (s, .stopped)) ∧
    (execute O (f + 1) ["stop", "foo bar"] s = (s, .stopped)) ∧
    (∀ er : HErr, (HRes.stopped : HRes) ≠ .herr er) := by
  refine ⟨?_, rfl, fun er h => by cases h⟩
  intro hi hline
  show interp O (f + 1) (.blockT lines i e) s = _
  rw [interp, if_pos hi]
  simp only [hline]
  rfl

/-- Witness for C8: a `stop` at the top of a two-line program ends the run
with the signal, the second line never dispatched. -/
theorem c8_witness :
    run_block testOracle 3 ["stop", "keep x to 7"] 0 2 st0 = (st0, .stopped) :=
  (c8_top_level_stop testOracle 2 ["stop", "keep x to 7"] 0 2 st0).1
    (by decide) rfl

/-- Counterexample for C8 as stated: the Control Signal from a top-level
`stop` is reported past `execute` — the outcome of `execute` is the
`stopped` signal, not normal completion, so the claim that it "never
escapes past the top-level program dispatch and is never reported to the
caller" fails on the program `["stop"]`. -/
theorem c8_counterexample :
    execute testOracle 10 ["stop"] st0 = (st0, .stopped) ∧
    HRes.stopped ≠ HRes.done := by
  exact ⟨by decide, by decide⟩

/-- Claim C9 (amended): an unrecognized line fails with
`UnknownInstruction` naming the stripped offending text and the 1-based
position of the line within the range handed to the dispatching
`run_block` — equal to the original source line number for top-level
lines, but relative to the extracted block body inside a nested
construct, as the concrete nested program shows. -/
theorem c9_unknown_instruction (O : Oracle) (f : Nat) (lines : List String)
    (i e : Nat) (s : St) (line : String) :
    (i < e → pystrip (pyRstripNl (lines.getD i "")) = line →
      line ≠ "" → strStarts line "#" = false → strStarts line "keep " = false →
      strStarts line "say" = false → line ≠ "stop" →
      strStarts line "when " = false → strStarts line "repeat until " = false →
      strStarts line "forever" = false →
      run_block O (f + 1) lines i e s =
        (s, .herr (.unknownInstruction line (i + 1)))) ∧
    execute testOracle 10 ["forever", "  foo bar"] st0 =
      (st0, .herr (.unknownInstruction "foo bar" 1)) := by
  refine ⟨?_, by decide⟩
  intro hi hline h1 h2 h3 h4 h5 h6 h7 h8
  show interp O (f + 1) (.blockT lines i e) s = _
  rw [interp, if_pos hi]
  simp only [hline, h1, h2, h3, h4, h5, h6, h7, h8, Bool.false_eq_true,
    Bool.or_self, decide_False, Bool.or_false, if_false]

/-- Witness for C9: the unrecognized top-level line `foo bar` fails with
`UnknownInstruction` at 1-based line number 1. -/
theorem c9_witness :
    run_block testOracle 2 ["foo bar"] 0 1 st0 =
      (st0, .herr (.unknownInstruction "foo bar" 1)) :=
  (c9_unknown_instruction testOracle 1 ["foo bar"] 0 1 st0 "foo bar").1
    (by decide) rfl (by decide) (by decide) (by decide) (by decide) (by decide)
    (by decide) (by decide) (by decide)

/-- Counterexample for C9 as stated: inside a nested block body the
reported number is relative to the block, not the original program — the
line `  foo bar` sits at original 1-based line 2, yet the error carries
line number 1. -/
theorem c9_counterexample :
    execute testOracle 10 ["forever", "  foo bar"] st0 =
      (st0, .herr (.unknownInstruction "foo bar" 1)) ∧
    HErr.unknownInstruction "foo bar" 1 ≠ HErr.unknownInstruction "foo bar" 2 := by
  exact ⟨by decide, by decide⟩

/-- Claim C10: a line of nothing but whitespace counts its whole length
(trailing newline included) as indentation, so a bare-newline line has
indentation 1: it is kept in the body of a construct at indentation 0
but terminates the body of a construct whose base indentation is ≥ 1. -/
theorem c10_blank_line_indent (l : String) :
    ((∀ c ∈ l.data, isPyWs c = true) → indentOf l = l.length) ∧
    indentOf "\n" = 1 ∧
    collect_block ["when x", "\n", "  keep a to 1"] 0 = (["\n", "  keep a to 1"], 2) ∧
    collect_block ["  when x", "\n", "    keep a to 1"] 0 = ([], 0) := by
  refine ⟨?_, by decide, by decide, by decide⟩
  intro h
  unfold indentOf
  rw [List.takeWhile_eq_self_iff.mpr h]
  rfl

/-- Witness for C10: the bare-newline line consists of whitespace only, and
its full length counts as indentation. -/
theorem c10_witness : indentOf "\n" = "\n".length :=
  (c10_blank_line_indent "\n").1 (by decide)
